import Mathlib

/-!
Verification of the Hartmann6 service-API example against its design
specification.  The repository's only source file is a tutorial script that
drives an optimization client: it creates an experiment (search space,
objective, constraints), runs an evaluate function built on the Hartmann-6
synthetic function, and exercises the trial lifecycle
(get_next_trial / complete_trial / log_trial_failure / attach_trial /
get_best_parameters).  The client itself is not part of the source tree, so
the trial-store state machine is modelled from the specification; the
`hartmann6` and `evaluate` functions are translated directly from the source.

Numbers carried by trials, bounds and constraint coefficients are embedded as
rationals (the script's floats); the evaluate function is embedded over the
real numbers, with the exponential and square root passed as the real
functions they idealize.
-/

namespace Ax

/-! ### Values, parameters, search space -/

/-- Modelled from the spec: value type of a parameter, one of
int, float, bool or string. -/
inductive VType
  | int
  | float
  | bool
  | str
deriving DecidableEq

/-- Modelled from the spec: a concrete parameter value of one of the four
declared value types.  Floats are embedded as rationals. -/
inductive PValue
  | int (i : ℤ)
  | float (q : ℚ)
  | bool (b : Bool)
  | str (s : String)
deriving DecidableEq

/-- The value type a concrete value carries. -/
def PValue.vtype : PValue → VType
  | .int _ => .int
  | .float _ => .float
  | .bool _ => .bool
  | .str _ => .str

/-- Numeric reading of a value, when it has one. -/
def PValue.toRat? : PValue → Option ℚ
  | .int i => some (i : ℚ)
  | .float q => some q
  | .bool _ => none
  | .str _ => none

/-- Modelled from the spec: a parameter's domain - bounds for range
parameters, enumerated values for choice parameters, a single value for
fixed parameters. -/
inductive Domain
  | range (lower upper : ℚ)
  | choice (values : List PValue)
  | fixed (value : PValue)
deriving DecidableEq

/-- Modelled from the spec: a tunable parameter (name, kind with its domain,
value type, optional log-scale and ordered flags). -/
structure Parameter where
  name : String
  domain : Domain
  vtype : VType
  logScale : Bool
  isOrdered : Bool
deriving DecidableEq

/-- A parameterization: mapping from parameter name to concrete value. -/
def Params := List (String × PValue)
deriving DecidableEq

/-- Lookup of a name in a parameterization. -/
def lookupP (p : Params) (n : String) : Option PValue :=
  (List.find? (fun q => q.1 == n) p).map (fun q => q.2)

/-- Modelled from the spec: a linear parameter constraint
sum of coefficient * parameter, bounded above (inclusively). -/
structure ParamConstraint where
  coeffs : List (String × ℚ)
  bound : ℚ
deriving DecidableEq

/-- Modelled from the spec: a search space - parameters with unique names
plus linear parameter constraints. -/
structure SearchSpace where
  params : List Parameter
  constraints : List ParamConstraint
deriving DecidableEq

/-- Membership of a value in a domain, as the executable check (range bounds
inclusive). -/
def inDomainB (v : PValue) : Domain → Bool
  | .range lo hi =>
    match v.toRat? with
    | some q => decide (lo ≤ q) && decide (q ≤ hi)
    | none => false
  | .choice vs => decide (v ∈ vs)
  | .fixed w => decide (v = w)

/-- Membership of a value in a domain, stated as the specification words it:
the value lies in the declared domain, equality at a range bound included. -/
def InDomain (v : PValue) : Domain → Prop
  | .range lo hi => ∃ q, v.toRat? = some q ∧ lo ≤ q ∧ q ≤ hi
  | .choice vs => v ∈ vs
  | .fixed w => v = w

/-- Executable check that a parameterization gives this parameter a value of
the declared type lying in the declared domain. -/
def paramOK (p : Params) (prm : Parameter) : Bool :=
  match lookupP p prm.name with
  | some v => decide (v.vtype = prm.vtype) && inDomainB v prm.domain
  | none => false

/-- Specification-level counterpart of `paramOK`. -/
def ParamOKP (p : Params) (prm : Parameter) : Prop :=
  ∃ v, lookupP p prm.name = some v ∧ v.vtype = prm.vtype ∧ InDomain v prm.domain

/-- The value of a linear form at a parameterization, when every referenced
parameter has a numeric value. -/
def linSum (p : Params) : List (String × ℚ) → Option ℚ
  | [] => some 0
  | (n, c) :: rest =>
    match (lookupP p n).bind PValue.toRat?, linSum p rest with
    | some q, some s => some (c * q + s)
    | _, _ => none

/-- Executable check of one linear constraint (inclusive at the bound). -/
def constraintHolds (p : Params) (c : ParamConstraint) : Bool :=
  match linSum p c.coeffs with
  | some s => decide (s ≤ c.bound)
  | none => false

/-- Specification-level counterpart of `constraintHolds`. -/
def ConstraintOKP (p : Params) (c : ParamConstraint) : Prop :=
  ∃ s, linSum p c.coeffs = some s ∧ s ≤ c.bound

/-- Specification-level satisfaction of a search space, as the spec words it:
every parameter's value is of the declared type and inside the declared
domain, and every linear constraint holds, inclusively at its bound. -/
def SearchSpace.Satisfies (ss : SearchSpace) (p : Params) : Prop :=
  (∀ prm ∈ ss.params, ParamOKP p prm) ∧ ∀ c ∈ ss.constraints, ConstraintOKP p c

/-! ### Errors -/

/-- Modelled from the spec: the error taxonomy of the design. -/
inductive AxError
  | ConfigError
  | DomainError
  | NotFoundError
  | AlreadyTerminalError
  | IncompleteDataError
  | ExhaustedStrategyError
  | NoFeasibleTrialError
  | AlreadyExistsError
deriving DecidableEq

/-- Modelled from the spec: `validate(parameterization)` fails with
DomainError if any parameter value is outside its declared domain, of the
wrong type, or a linear constraint is violated (inclusive at bounds). -/
def SearchSpace.validate (ss : SearchSpace) (p : Params) : Except AxError Unit :=
  if ss.params.all (paramOK p) && ss.constraints.all (constraintHolds p) then
    .ok ()
  else
    .error .DomainError

/-! ### Outcome specification -/

/-- Direction of an outcome constraint bound. -/
inductive CDir
  | le
  | ge
deriving DecidableEq

/-- Modelled from the spec: an outcome constraint, a bound on a metric. -/
structure OutcomeConstraint where
  metric : String
  dir : CDir
  bound : ℚ
deriving DecidableEq

/-- Modelled from the spec: objective metric name, minimize flag, outcome
constraints. -/
structure OutcomeSpec where
  objective : String
  minimize : Bool
  constraints : List OutcomeConstraint
deriving DecidableEq

/-- Modelled from the spec: the metric names an evaluator must supply - the
objective metric plus every metric named in an outcome constraint. -/
def OutcomeSpec.required_metrics (o : OutcomeSpec) : List String :=
  o.objective :: o.constraints.map (fun c => c.metric)

/-! ### Trials and the experiment -/

/-- Modelled from the spec: the lifecycle state of a trial. -/
inductive TrialState
  | CANDIDATE
  | RUNNING
  | COMPLETED
  | FAILED
  | ABANDONED
deriving DecidableEq

/-- A state is terminal when it is COMPLETED, FAILED or ABANDONED. -/
def TrialState.isTerminal : TrialState → Bool
  | .COMPLETED => true
  | .FAILED => true
  | .ABANDONED => true
  | _ => false

/-- Observed data of a trial: metric name to (mean, standard error). -/
def TrialData := List (String × ℚ × ℚ)
deriving DecidableEq

/-- Modelled from the spec: a trial - index, parameterization, lifecycle
state, observed data. -/
structure Trial where
  index : ℕ
  params : Params
  state : TrialState
  data : TrialData
deriving DecidableEq

/-- Modelled from the spec: an experiment owns one search space, one outcome
spec and the ordered sequence of all trials ever created. -/
structure Experiment where
  searchSpace : SearchSpace
  outcomeSpec : OutcomeSpec
  trials : List Trial
deriving DecidableEq

/-- The trial an index designates, when the experiment knows it. -/
def Experiment.findTrial (e : Experiment) (i : ℕ) : Option Trial :=
  e.trials.find? (fun u => u.index == i)

/-- In-place update of every trial carrying the given index. -/
def updTrials (l : List Trial) (i : ℕ) (g : Trial → Trial) : List Trial :=
  l.map (fun u => if u.index = i then g u else u)

/-- Executable coverage check: the data supplies every required metric. -/
def coversMetrics (d : TrialData) (ms : List String) : Bool :=
  ms.all (fun m => (d.find? (fun md => md.1 == m)).isSome)

/-- Modelled from the spec: `complete_trial(index, data)` - NotFoundError on
an unknown index, AlreadyTerminalError on a trial already
COMPLETED/FAILED/ABANDONED, IncompleteDataError when the data misses a
required metric, otherwise the trial transitions to COMPLETED with that
data. -/
def Experiment.complete_trial (e : Experiment) (i : ℕ) (d : TrialData) :
    Except AxError Experiment :=
  match e.findTrial i with
  | none => .error .NotFoundError
  | some t =>
    if t.state.isTerminal then .error .AlreadyTerminalError
    else if coversMetrics d e.outcomeSpec.required_metrics then
      .ok { e with trials := (updTrials e.trials i
              (fun u => { u with state := .COMPLETED, data := d })) }
    else .error .IncompleteDataError

/-- Modelled from the spec: `log_trial_failure(index)` - NotFoundError on an
unknown index, AlreadyTerminalError on an already terminal trial, otherwise
the trial transitions to FAILED. -/
def Experiment.log_trial_failure (e : Experiment) (i : ℕ) :
    Except AxError Experiment :=
  match e.findTrial i with
  | none => .error .NotFoundError
  | some t =>
    if t.state.isTerminal then .error .AlreadyTerminalError
    else .ok { e with trials := (updTrials e.trials i
                (fun u => { u with state := .FAILED })) }

/-- Modelled from the spec: abandoning a trial - same guards as failure,
transition to ABANDONED. -/
def Experiment.abandon_trial (e : Experiment) (i : ℕ) :
    Except AxError Experiment :=
  match e.findTrial i with
  | none => .error .NotFoundError
  | some t =>
    if t.state.isTerminal then .error .AlreadyTerminalError
    else .ok { e with trials := (updTrials e.trials i
                (fun u => { u with state := .ABANDONED })) }

/-- Modelled from the spec: `attach_trial(parameterization)` validates
against the search space, then creates a new trial directly in RUNNING state
and returns its index. -/
def Experiment.attach_trial (e : Experiment) (p : Params) :
    Except AxError (ℕ × Experiment) :=
  match e.searchSpace.validate p with
  | .error err => .error err
  | .ok _ =>
    .ok (e.trials.length,
      { e with trials := e.trials ++ [⟨e.trials.length, p, .RUNNING, []⟩] })

/-- Modelled from the spec: a generation strategy proposes one new
parameterization from the full experiment (search space, outcome spec and
ordered trial history), or signals exhaustion. -/
def Strategy := Experiment → Option Params

/-- Modelled from the spec: `get_next_trial()` delegates to the strategy and
creates a new CANDIDATE trial with the returned parameterization, or fails
with ExhaustedStrategyError. -/
def Experiment.get_next_trial (e : Experiment) (gen : Strategy) :
    Except AxError (Params × ℕ × Experiment) :=
  match gen e with
  | none => .error .ExhaustedStrategyError
  | some p =>
    .ok (p, e.trials.length,
      { e with trials := e.trials ++ [⟨e.trials.length, p, .CANDIDATE, []⟩] })

/-- The observed mean of the given metric in a trial's data. -/
def objMean (obj : String) (t : Trial) : Option ℚ :=
  (t.data.find? (fun md => md.1 == obj)).map (fun md => md.2.1)

/-- One outcome constraint, evaluated on a trial's observed means. -/
def outcomeHolds (d : TrialData) (c : OutcomeConstraint) : Bool :=
  match (d.find? (fun md => md.1 == c.metric)).map (fun md => md.2.1) with
  | some mean =>
    match c.dir with
    | .le => decide (mean ≤ c.bound)
    | .ge => decide (c.bound ≤ mean)
  | none => false

/-- A trial is feasible when it is COMPLETED and satisfies every outcome
constraint on its observed means. -/
def feasibleB (o : OutcomeSpec) (t : Trial) : Bool :=
  decide (t.state = .COMPLETED) && o.constraints.all (outcomeHolds t.data)

/-- Whether `a` is strictly better than `b` under the minimize flag. -/
def better (mz : Bool) (a b : ℚ) : Bool :=
  if mz then decide (a < b) else decide (b < a)

/-- The best trial of a list under the minimize flag: the one with the
optimal objective mean, earliest on ties. -/
def selectBest (mz : Bool) (obj : String) : List Trial → Option Trial
  | [] => none
  | t :: ts =>
    match objMean obj t with
    | none => selectBest mz obj ts
    | some m =>
      match selectBest mz obj ts with
      | none => some t
      | some b =>
        match objMean obj b with
        | none => some t
        | some mb => if better mz mb m then some b else some t

/-- Modelled from the spec: `get_best_parameters()` scans the COMPLETED
trials, keeps those satisfying all outcome constraints on observed means,
selects the one whose objective observed mean is best per the minimize flag
and returns its parameterization and metric summary; NoFeasibleTrialError
when no completed trial satisfies all constraints. -/
def Experiment.get_best_parameters (e : Experiment) :
    Except AxError (Params × TrialData) :=
  match selectBest e.outcomeSpec.minimize e.outcomeSpec.objective
      (e.trials.filter (feasibleB e.outcomeSpec)) with
  | some t => .ok (t.params, t.data)
  | none => .error .NoFeasibleTrialError

/-! ### Operation sequences -/

/-- One client operation of the demonstrated interface. -/
inductive Op
  | next
  | complete (i : ℕ) (d : TrialData)
  | fail (i : ℕ)
  | abandon (i : ℕ)
  | attach (p : Params)

/-- Whether an operation consults the generation strategy. -/
def Op.usesGen : Op → Bool
  | .next => true
  | _ => false

/-- The experiment an operation leaves behind; a failing operation leaves
the experiment unchanged. -/
def applyOp (gen : Strategy) (e : Experiment) : Op → Experiment
  | .next =>
    match e.get_next_trial gen with
    | .ok r => r.2.2
    | .error _ => e
  | .complete i d =>
    match e.complete_trial i d with
    | .ok r => r
    | .error _ => e
  | .fail i =>
    match e.log_trial_failure i with
    | .ok r => r
    | .error _ => e
  | .abandon i =>
    match e.abandon_trial i with
    | .ok r => r
    | .error _ => e
  | .attach p =>
    match e.attach_trial p with
    | .ok r => r.2
    | .error _ => e

/-- The experiment after a sequence of operations. -/
def applyOps (gen : Strategy) (e : Experiment) (ops : List Op) : Experiment :=
  ops.foldl (applyOp gen) e

/-- Well-formedness of the trial store: the indices, in creation order, are
exactly 0, 1, 2, ... - unique and monotonically increasing. -/
def Experiment.WF (e : Experiment) : Prop :=
  e.trials.map Trial.index = List.range e.trials.length

/-- Modelled from the spec: the generation-strategy contract - it never
re-proposes the exact parameterization tied to a FAILED trial of the history
it is given. -/
def NoRepropose (gen : Strategy) : Prop :=
  ∀ e : Experiment, ∀ t ∈ e.trials, t.state = .FAILED → gen e ≠ some t.params

/-! ### The example experiment of the script -/

/-- A range parameter over [0, 1] of float type, as the script declares
x1 ... x6. -/
def rangeParam (n : String) : Parameter :=
  ⟨n, .range 0 1, .float, false, false⟩

/-- The search space of the script's `create_experiment` call: x1 ... x6 in
[0.0, 1.0], parameter constraint x1 + x2 <= 2.0. -/
def exampleSearchSpace : SearchSpace :=
  { params := [rangeParam "x1", rangeParam "x2", rangeParam "x3",
               rangeParam "x4", rangeParam "x5", rangeParam "x6"],
    constraints := [⟨[("x1", 1), ("x2", 1)], 2⟩] }

/-- The outcome spec of the script: objective "hartmann6" minimized, outcome
constraint "l2norm" <= 1.25. -/
def exampleOutcomeSpec : OutcomeSpec :=
  ⟨"hartmann6", true, [⟨"l2norm", .le, 1.25⟩]⟩

/-- The freshly created experiment of the script. -/
def exampleExperiment : Experiment :=
  ⟨exampleSearchSpace, exampleOutcomeSpec, []⟩

/-! ### The evaluation function of the script

`hartmann6` and `evaluate` are translated from the source file; the floats
of the script are idealized as real numbers, and the exponential and square
root are taken as arguments so that the definitions stay executable - the
claims instantiate them with `Real.exp` and `Real.sqrt`. -/

/-- The alpha coefficients of the Hartmann-6 function, from the source. -/
def alphav : Fin 4 → ℚ := ![1.0, 1.2, 3.0, 3.2]

/-- The A matrix of the Hartmann-6 function, from the source. -/
def Amat : Fin 4 → Fin 6 → ℚ :=
  ![![10, 3, 17, 3.5, 1.7, 8],
    ![0.05, 10, 17, 0.1, 8, 14],
    ![3, 3.5, 1.7, 10, 17, 8],
    ![17, 8, 0.05, 10, 0.1, 14]]

/-- The integer table from which the source scales the P matrix. -/
def Pbase : Fin 4 → Fin 6 → ℚ :=
  ![![1312, 1696, 5569, 124, 8283, 5886],
    ![2329, 4135, 8307, 3736, 1004, 9991],
    ![2348, 1451, 3522, 2883, 3047, 6650],
    ![4047, 8828, 8732, 5743, 1091, 381]]

/-- The P matrix of the Hartmann-6 function: 10 ^ (-4) times the table,
as the source computes it. -/
def Pmat : Fin 4 → Fin 6 → ℚ := fun j k => 10 ^ (-4 : ℤ) * Pbase j k

/-- The Hartmann-6 function as the source writes it: starting from y = 0,
for each j it accumulates t over k and subtracts alpha_j * exp(-t). -/
def hartmann6 (rexp : ℝ → ℝ) (x : Fin 6 → ℝ) : ℝ :=
  (List.finRange 4).foldl
    (fun y j =>
      y - (alphav j : ℝ) *
        rexp (-((List.finRange 6).foldl
          (fun t k => t + (Amat j k : ℝ) * (x k - (Pmat j k : ℝ)) ^ 2) 0)))
    0

/-- The evaluation function of the script: reads x1 ... x6 from the
parameterization with `get` (a missing key reads as none and the arithmetic
then fails, modelled as a `none` result) and returns the two metrics
"hartmann6" and "l2norm", each with standard error 0. -/
def evaluate (rexp rsqrt : ℝ → ℝ) (parameters : String → Option ℝ) :
    Option (List (String × ℝ × ℝ)) :=
  match parameters "x1", parameters "x2", parameters "x3",
        parameters "x4", parameters "x5", parameters "x6" with
  | some v1, some v2, some v3, some v4, some v5, some v6 =>
    some [("hartmann6", hartmann6 rexp ![v1, v2, v3, v4, v5, v6], 0),
          ("l2norm",
            rsqrt ((List.finRange 6).foldl
              (fun s k => s + (![v1, v2, v3, v4, v5, v6]) k ^ 2) 0), 0)]
  | _, _, _, _, _, _ => none

/-! ### Concrete fixtures used by counterexamples and witnesses -/

/-- Outcome spec of the best-point example: objective "obj" minimized, one
outcome constraint "l2" at most 1. -/
def cexOutcomeSpec : OutcomeSpec := ⟨"obj", true, [⟨"l2", .le, 1⟩]⟩

/-- Feasible completed trial with objective mean 5. -/
def cexTrial5 : Trial :=
  ⟨0, [("x", .float 0)], .COMPLETED, [("obj", 5, 0), ("l2", 0, 0)]⟩

/-- Infeasible completed trial with objective mean 2: its "l2" mean 2
violates the bound 1. -/
def cexTrial2 : Trial :=
  ⟨1, [("x", .float 1)], .COMPLETED, [("obj", 2, 0), ("l2", 2, 0)]⟩

/-- Feasible completed trial with objective mean 7. -/
def cexTrial7 : Trial :=
  ⟨2, [("x", .float 2)], .COMPLETED, [("obj", 7, 0), ("l2", 0, 0)]⟩

/-- The experiment of the spec's best-point example: completed trials with
objective means 5 (feasible), 2 (infeasible) and 7 (feasible), minimizing. -/
def cexExperiment : Experiment :=
  ⟨⟨[⟨"x", .range 0 10, .float, false, false⟩], []⟩, cexOutcomeSpec,
    [cexTrial5, cexTrial2, cexTrial7]⟩

/-- An experiment whose only trial, index 0, is already COMPLETED. -/
def doneExperiment : Experiment :=
  ⟨⟨[], []⟩, ⟨"obj", true, []⟩,
    [⟨0, [("x", .float 0)], .COMPLETED, [("obj", 1, 0)]⟩]⟩

/-- The example experiment with one RUNNING trial of index 0 attached. -/
def runningExperiment : Experiment :=
  { exampleExperiment with trials := [⟨0, [("x1", .float 0)], .RUNNING, []⟩] }

/-- An experiment whose only trial, index 0, is FAILED. -/
def failedExperiment : Experiment :=
  ⟨⟨[], []⟩, ⟨"obj", true, []⟩, [⟨0, [("x", .float 0)], .FAILED, []⟩]⟩

/-- The exhausted strategy: proposes nothing. -/
def noneStrategy : Strategy := fun _ => none

/-- A strategy proposing the empty parameterization, used to contrast two
distinct strategies. -/
def emptyStrategy : Strategy := fun _ => some []

/-- A short operation sequence that never consults the strategy. -/
def detOps : List Op :=
  [.attach [("x", .float 9)], .complete 0 [("obj", 1, 0)]]

/-- The all-ones parameterization fed to the evaluation function. -/
def onesP : String → Option ℝ := fun _ => some 1

/-- The all-ones point. -/
def onesX : Fin 6 → ℝ := fun _ => 1

/-! ## Lemmas and claim theorems -/

/-- The executable domain check agrees with the specification predicate. -/
theorem inDomainB_iff (v : PValue) (d : Domain) :
    inDomainB v d = true ↔ InDomain v d := by
  cases d with
  | range lo hi =>
    simp only [inDomainB, InDomain]
    cases hv : v.toRat? with
    | none => simp
    | some q => simp
  | choice vs => simp [inDomainB, InDomain]
  | fixed w => simp [inDomainB, InDomain]

/-- The executable per-parameter check agrees with the specification
predicate. -/
theorem paramOK_iff (p : Params) (prm : Parameter) :
    paramOK p prm = true ↔ ParamOKP p prm := by
  simp only [paramOK, ParamOKP]
  cases h : lookupP p prm.name with
  | none => simp
  | some v => simp [inDomainB_iff]

/-- The executable constraint check agrees with the specification
predicate. -/
theorem constraintHolds_iff (p : Params) (c : ParamConstraint) :
    constraintHolds p c = true ↔ ConstraintOKP p c := by
  simp only [constraintHolds, ConstraintOKP]
  cases h : linSum p c.coeffs with
  | none => simp
  | some s => simp

/-- The boolean condition of `validate` agrees with search-space
satisfaction. -/
theorem satisfies_decide (ss : SearchSpace) (p : Params) :
    (ss.params.all (paramOK p) && ss.constraints.all (constraintHolds p))
        = true ↔ ss.Satisfies p := by
  rw [Bool.and_eq_true, List.all_eq_true, List.all_eq_true]
  constructor
  · rintro ⟨h1, h2⟩
    exact ⟨fun prm hp => (paramOK_iff p prm).1 (h1 prm hp),
           fun c hc => (constraintHolds_iff p c).1 (h2 c hc)⟩
  · rintro ⟨h1, h2⟩
    exact ⟨fun prm hp => (paramOK_iff p prm).2 (h1 prm hp),
           fun c hc => (constraintHolds_iff p c).2 (h2 c hc)⟩

/-- Claim C3: `validate(p)` succeeds exactly when p satisfies the search
space - every value in its declared domain, of the declared type, every
linear constraint holding with exact equality at a bound allowed - and
fails with DomainError otherwise; the boundary parameterization x1 = x2 = 1
(so x1 + x2 = 2, exactly the constraint bound) validates. -/
theorem validate_spec (ss : SearchSpace) (p : Params) :
    (ss.validate p = .ok () ↔ ss.Satisfies p) ∧
    (ss.validate p = .error .DomainError ↔ ¬ ss.Satisfies p) ∧
    exampleSearchSpace.validate
      [("x1", .float 1), ("x2", .float 1), ("x3", .float 0),
       ("x4", .float 0), ("x5", .float 0), ("x6", .float 0)] = .ok () := by
  have hd := satisfies_decide ss p
  refine ⟨?_, ?_, ?_⟩
  · rw [SearchSpace.validate]
    by_cases h : (ss.params.all (paramOK p) &&
        ss.constraints.all (constraintHolds p)) = true
    · rw [if_pos h]
      exact iff_of_true rfl (hd.1 h)
    · rw [if_neg h]
      exact iff_of_false (fun hcon => by simp at hcon)
        (fun hs => h (hd.2 hs))
  · rw [SearchSpace.validate]
    by_cases h : (ss.params.all (paramOK p) &&
        ss.constraints.all (constraintHolds p)) = true
    · rw [if_pos h]
      exact iff_of_false (fun hcon => by simp at hcon)
        (fun hn => hn (hd.1 h))
    · rw [if_neg h]
      exact iff_of_true rfl (fun hs => h (hd.2 hs))
  · have hc : (exampleSearchSpace.params.all (paramOK
          [("x1", .float 1), ("x2", .float 1), ("x3", .float 0),
           ("x4", .float 0), ("x5", .float 0), ("x6", .float 0)]) &&
        exampleSearchSpace.constraints.all (constraintHolds
          [("x1", .float 1), ("x2", .float 1), ("x3", .float 0),
           ("x4", .float 0), ("x5", .float 0), ("x6", .float 0)])) = true := by
      simp [exampleSearchSpace, rangeParam, paramOK, lookupP, inDomainB,
        PValue.toRat?, PValue.vtype, constraintHolds, linSum, List.find?]
      norm_num
    rw [SearchSpace.validate, if_pos hc]

/-- Updating trials of a given index commutes with finding that index, for
an index-preserving update. -/
theorem find?_updTrials (l : List Trial) (i : ℕ) (g : Trial → Trial)
    (hg : ∀ u, (g u).index = u.index) :
    (updTrials l i g).find? (fun u => u.index == i) =
      (l.find? (fun u => u.index == i)).map
        (fun u => if u.index = i then g u else u) := by
  have hpred : ((fun u : Trial => u.index == i) ∘
      (fun u => if u.index = i then g u else u)) =
      (fun u : Trial => u.index == i) := by
    funext u
    by_cases h : u.index = i
    · simp [Function.comp, h, hg]
    · simp [Function.comp, h]
  rw [updTrials, List.find?_map, hpred]

/-- After an index-preserving update of trial i, `findTrial i` returns the
updated trial. -/
theorem findTrial_upd (e : Experiment) (i : ℕ) (t : Trial) (g : Trial → Trial)
    (hg : ∀ u, (g u).index = u.index) (hf : e.findTrial i = some t) :
    Experiment.findTrial { e with trials := (updTrials e.trials i g) } i =
      some (g t) := by
  have hf' : e.trials.find? (fun u => u.index == i) = some t := hf
  have hit : t.index = i := by
    have hp := List.find?_some hf'
    simpa using hp
  show (updTrials e.trials i g).find? (fun u => u.index == i) = some (g t)
  rw [find?_updTrials e.trials i g hg]
  rw [show e.trials.find? (fun u => u.index == i) = some t from hf]
  simp [hit]

/-- Claim C2: on a trial already in a terminal state, complete_trial,
log_trial_failure and abandoning all fail with AlreadyTerminalError, and
as operations they leave the experiment unchanged. -/
theorem terminal_guard (e : Experiment) (i : ℕ) (t : Trial) (d : TrialData)
    (hf : e.findTrial i = some t) (ht : t.state.isTerminal = true) :
    e.complete_trial i d = .error .AlreadyTerminalError ∧
    e.log_trial_failure i = .error .AlreadyTerminalError ∧
    e.abandon_trial i = .error .AlreadyTerminalError ∧
    ∀ gen : Strategy, applyOp gen e (.complete i d) = e ∧
      applyOp gen e (.fail i) = e ∧ applyOp gen e (.abandon i) = e := by
  have h1 : e.complete_trial i d = .error .AlreadyTerminalError := by
    rw [Experiment.complete_trial, hf]
    simp [ht]
  have h2 : e.log_trial_failure i = .error .AlreadyTerminalError := by
    rw [Experiment.log_trial_failure, hf]
    simp [ht]
  have h3 : e.abandon_trial i = .error .AlreadyTerminalError := by
    rw [Experiment.abandon_trial, hf]
    simp [ht]
  exact ⟨h1, h2, h3, fun gen => ⟨by simp [applyOp, h1], by simp [applyOp, h2],
    by simp [applyOp, h3]⟩⟩

/-- Claim C2 witness: failing the already-completed trial 0 of a concrete
experiment is refused with AlreadyTerminalError. -/
theorem terminal_guard_witness :
    doneExperiment.log_trial_failure 0 = .error .AlreadyTerminalError :=
  (terminal_guard doneExperiment 0
    ⟨0, [("x", .float 0)], .COMPLETED, [("obj", 1, 0)]⟩ [] rfl rfl).2.1

/-- Claim C4: on a known non-terminal trial, complete_trial fails with
IncompleteDataError exactly when the data misses one of the required
metrics - the objective plus every outcome-constraint metric, which for
the example experiment is hartmann6 and l2norm - and with complete data
the trial transitions to COMPLETED carrying that data. -/
theorem complete_trial_spec (e : Experiment) (i : ℕ) (t : Trial)
    (d : TrialData) (hf : e.findTrial i = some t)
    (ht : t.state.isTerminal = false) :
    (e.complete_trial i d = .error .IncompleteDataError ↔
      coversMetrics d e.outcomeSpec.required_metrics = false) ∧
    (coversMetrics d e.outcomeSpec.required_metrics = true →
      ∃ ex, e.complete_trial i d = .ok ex ∧
        ex.findTrial i = some { t with state := .COMPLETED, data := d } ∧
        ex.trials.length = e.trials.length) ∧
    exampleOutcomeSpec.required_metrics = ["hartmann6", "l2norm"] := by
  refine ⟨?_, ?_, rfl⟩
  · rw [Experiment.complete_trial, hf]
    simp only [ht, Bool.false_eq_true, if_false]
    cases hcov : coversMetrics d e.outcomeSpec.required_metrics
    · simp
    · simp
  · intro hcov
    rw [Experiment.complete_trial, hf]
    simp only [ht, Bool.false_eq_true, if_false, hcov, if_true]
    refine ⟨_, rfl, ?_, ?_⟩
    · exact findTrial_upd e i t _ (fun u => rfl) hf
    · show (updTrials e.trials i _).length = e.trials.length
      rw [updTrials, List.length_map]

/-- Claim C4 witness: completing the running trial of the example
experiment with data carrying hartmann6 alone is refused with
IncompleteDataError, and the required metrics are hartmann6 and l2norm. -/
theorem complete_trial_witness :
    runningExperiment.complete_trial 0 [("hartmann6", 1, 0)] =
      .error .IncompleteDataError ∧
    exampleOutcomeSpec.required_metrics = ["hartmann6", "l2norm"] := by
  have h := complete_trial_spec runningExperiment 0
    ⟨0, [("x1", PValue.float 0)], .RUNNING, []⟩ [("hartmann6", 1, 0)] rfl rfl
  exact ⟨h.1.mpr rfl, h.2.2⟩

/-- Claim C5: attach_trial validates first - on a domain violation it fails
with DomainError and creates no trial (as an operation it leaves the
experiment unchanged), on success it appends a new RUNNING trial with the
next index and returns that index; in particular attaching x1 = x2 = 9 on
the example space whose bounds are [0, 1] fails with DomainError. -/
theorem attach_trial_spec (e : Experiment) (p : Params) :
    (e.searchSpace.validate p = .error .DomainError →
      e.attach_trial p = .error .DomainError ∧
      ∀ gen : Strategy, applyOp gen e (.attach p) = e) ∧
    (e.searchSpace.validate p = .ok () →
      e.attach_trial p = .ok (e.trials.length,
        { e with trials := e.trials ++ [⟨e.trials.length, p, .RUNNING, []⟩] })) ∧
    exampleExperiment.attach_trial [("x1", .float 9), ("x2", .float 9)] =
      .error .DomainError := by
  refine ⟨?_, ?_, by rfl⟩
  · intro h
    have h1 : e.attach_trial p = .error .DomainError := by
      rw [Experiment.attach_trial, h]
    exact ⟨h1, fun gen => by simp [applyOp, h1]⟩
  · intro h
    rw [Experiment.attach_trial, h]

/-- Shape of any one operation's effect: it keeps the search space and
outcome spec, and either leaves the trials alone, updates the state/data of
the trials at one index whose found representative was not terminal, or
appends one new trial carrying the next index. -/
theorem applyOp_shape (gen : Strategy) (e : Experiment) (op : Op) :
    ∃ l, applyOp gen e op = { e with trials := l } ∧
      (l = e.trials ∨
       (∃ i g w, e.findTrial i = some w ∧ w.state.isTerminal = false ∧
          (∀ u : Trial, (g u).index = u.index ∧ (g u).params = u.params) ∧
          l = updTrials e.trials i g) ∨
       (∃ t : Trial, t.index = e.trials.length ∧ l = e.trials ++ [t])) := by
  cases op with
  | next =>
    simp only [applyOp, Experiment.get_next_trial]
    cases h : gen e with
    | none => exact ⟨e.trials, rfl, Or.inl rfl⟩
    | some p =>
      exact ⟨_, rfl, Or.inr (Or.inr
        ⟨⟨e.trials.length, p, .CANDIDATE, []⟩, rfl, rfl⟩)⟩
  | complete i d =>
    simp only [applyOp, Experiment.complete_trial]
    cases hf : e.findTrial i with
    | none => exact ⟨e.trials, rfl, Or.inl rfl⟩
    | some w =>
      cases hterm : w.state.isTerminal
      · cases hcov : coversMetrics d e.outcomeSpec.required_metrics
        · simp only [hterm, hcov, Bool.false_eq_true, if_false]
          exact ⟨e.trials, rfl, Or.inl rfl⟩
        · simp only [hterm, hcov, Bool.false_eq_true, if_false, if_true]
          exact ⟨_, rfl, Or.inr (Or.inl ⟨i,
            fun u => { u with state := .COMPLETED, data := d }, w, hf, hterm,
            fun u => ⟨rfl, rfl⟩, rfl⟩)⟩
      · simp only [hterm, if_true]
        exact ⟨e.trials, rfl, Or.inl rfl⟩
  | fail i =>
    simp only [applyOp, Experiment.log_trial_failure]
    cases hf : e.findTrial i with
    | none => exact ⟨e.trials, rfl, Or.inl rfl⟩
    | some w =>
      cases hterm : w.state.isTerminal
      · simp only [hterm, Bool.false_eq_true, if_false]
        exact ⟨_, rfl, Or.inr (Or.inl ⟨i,
          fun u => { u with state := .FAILED }, w, hf, hterm,
          fun u => ⟨rfl, rfl⟩, rfl⟩)⟩
      · simp only [hterm, if_true]
        exact ⟨e.trials, rfl, Or.inl rfl⟩
  | abandon i =>
    simp only [applyOp, Experiment.abandon_trial]
    cases hf : e.findTrial i with
    | none => exact ⟨e.trials, rfl, Or.inl rfl⟩
    | some w =>
      cases hterm : w.state.isTerminal
      · simp only [hterm, Bool.false_eq_true, if_false]
        exact ⟨_, rfl, Or.inr (Or.inl ⟨i,
          fun u => { u with state := .ABANDONED }, w, hf, hterm,
          fun u => ⟨rfl, rfl⟩, rfl⟩)⟩
      · simp only [hterm, if_true]
        exact ⟨e.trials, rfl, Or.inl rfl⟩
  | attach p =>
    simp only [applyOp, Experiment.attach_trial]
    cases hv : e.searchSpace.validate p with
    | error err => exact ⟨e.trials, rfl, Or.inl rfl⟩
    | ok u =>
      exact ⟨_, rfl, Or.inr (Or.inr
        ⟨⟨e.trials.length, p, .RUNNING, []⟩, rfl, rfl⟩)⟩

/-- An index-and-params-preserving update keeps the index sequence. -/
theorem updTrials_map_index (l : List Trial) (i : ℕ) (g : Trial → Trial)
    (hg : ∀ u : Trial, (g u).index = u.index) :
    (updTrials l i g).map Trial.index = l.map Trial.index := by
  rw [updTrials, List.map_map]
  refine List.map_congr_left ?_
  intro u _
  by_cases h : u.index = i
  · simp [Function.comp, h, hg]
  · simp [Function.comp, h]

/-- Every operation preserves well-formedness of the trial store. -/
theorem wf_applyOp (gen : Strategy) (e : Experiment) (op : Op)
    (he : e.WF) : (applyOp gen e op).WF := by
  obtain ⟨l, hl, hcase⟩ := applyOp_shape gen e op
  rw [hl]
  rcases hcase with rfl | ⟨i, g, w, _, _, hg, rfl⟩ | ⟨t, hti, rfl⟩
  · exact he
  · show (updTrials e.trials i g).map Trial.index =
      List.range (updTrials e.trials i g).length
    rw [updTrials_map_index e.trials i g (fun u => (hg u).1)]
    rw [show (updTrials e.trials i g).length = e.trials.length from
      List.length_map _ _]
    exact he
  · show (e.trials ++ [t]).map Trial.index =
      List.range (e.trials ++ [t]).length
    rw [List.map_append, List.length_append]
    simp only [List.map_cons, List.map_nil, List.length_cons,
      List.length_nil, Nat.zero_add]
    rw [he, hti, List.range_succ]

/-- A well-formed experiment has pairwise distinct trial indices. -/
theorem nodup_indices (e : Experiment) (he : e.WF) :
    (e.trials.map Trial.index).Nodup := by
  rw [he]
  exact List.nodup_range _

/-- A FAILED trial of a well-formed experiment survives any one operation
unchanged. -/
theorem failed_mem_applyOp (gen : Strategy) (e : Experiment) (op : Op)
    (t : Trial) (he : e.WF) (ht : t ∈ e.trials) (hts : t.state = .FAILED) :
    t ∈ (applyOp gen e op).trials := by
  obtain ⟨l, hl, hcase⟩ := applyOp_shape gen e op
  rw [hl]
  rcases hcase with rfl | ⟨i, g, w, hw, hterm, hg, rfl⟩ | ⟨u, _, rfl⟩
  · exact ht
  · show t ∈ updTrials e.trials i g
    have hwmem : w ∈ e.trials := List.mem_of_find?_eq_some hw
    have hwidx : w.index = i := by
      have hp := List.find?_some
        (show e.trials.find? (fun u => u.index == i) = some w from hw)
      simpa using hp
    by_cases hidx : t.index = i
    · exfalso
      have hne : t = w :=
        List.inj_on_of_nodup_map (nodup_indices e he) ht hwmem
          (by rw [hidx, hwidx])
      rw [← hne, hts] at hterm
      simp [TrialState.isTerminal] at hterm
    · exact List.mem_map.mpr ⟨t, ht, by simp [hidx]⟩
  · exact List.mem_append_left _ ht

/-- A FAILED trial of a well-formed experiment survives any sequence of
operations, and well-formedness survives with it. -/
theorem failed_persists (gen : Strategy) (ops : List Op) :
    ∀ (e : Experiment) (t : Trial), e.WF → t ∈ e.trials →
      t.state = .FAILED →
      t ∈ (applyOps gen e ops).trials ∧ (applyOps gen e ops).WF := by
  induction ops with
  | nil => exact fun e t he ht _ => ⟨ht, he⟩
  | cons op ops ih =>
    intro e t he ht hts
    rw [applyOps, List.foldl_cons]
    exact ih (applyOp gen e op) t (wf_applyOp gen e op he)
      (failed_mem_applyOp gen e op t he ht hts) hts

/-- Claim C6: once log_trial_failure has marked a trial FAILED, a strategy
honouring the no-reproposal contract never again proposes that trial's
parameterization, whatever operations follow. -/
theorem never_repropose (gen : Strategy) (hgen : NoRepropose gen)
    (e : Experiment) (he : e.WF) (t : Trial) (ht : t ∈ e.trials)
    (hts : t.state = .FAILED) (ops : List Op) :
    gen (applyOps gen e ops) ≠ some t.params := by
  obtain ⟨hmem, _⟩ := failed_persists gen ops e t he ht hts
  exact hgen (applyOps gen e ops) t hmem hts

/-- Claim C6 witness: instantiated on a one-trial experiment whose trial
has FAILED and on the exhausted strategy. -/
theorem never_repropose_witness :
    noneStrategy (applyOps noneStrategy failedExperiment []) ≠
      some [("x", PValue.float 0)] := by
  have hnr : NoRepropose noneStrategy := by
    intro e t ht hts h
    simp [noneStrategy] at h
  exact never_repropose noneStrategy hnr failedExperiment rfl
    ⟨0, [("x", .float 0)], .FAILED, []⟩ (by simp [failedExperiment]) rfl []

/-- A sequence of operations that never consults the strategy yields the
same experiment under any two strategies. -/
theorem applyOps_genFree (gen1 gen2 : Strategy) :
    ∀ (ops : List Op) (e : Experiment),
      (∀ op ∈ ops, op.usesGen = false) →
      applyOps gen1 e ops = applyOps gen2 e ops := by
  intro ops
  induction ops with
  | nil => exact fun e _ => rfl
  | cons op ops ih =>
    intro e h
    rw [applyOps, applyOps, List.foldl_cons, List.foldl_cons]
    have hop : applyOp gen1 e op = applyOp gen2 e op := by
      cases op with
      | next =>
        have := h _ (List.mem_cons_self _ _)
        simp [Op.usesGen] at this
      | complete i d => rfl
      | fail i => rfl
      | abandon i => rfl
      | attach p => rfl
    rw [hop]
    exact ih _ (fun o ho => h o (List.mem_cons_of_mem _ ho))

/-- Claim C7: a round trip of experiment operations that never consults the
generation strategy - creation, attaching trials, completing them - gives
the same final experiment and the same get_best_parameters result whatever
the strategy; together with the purely functional model this is determinism
of the round trip in the completion data and its order. -/
theorem round_trip_deterministic (gen1 gen2 : Strategy) (e : Experiment)
    (ops : List Op) (h : ∀ op ∈ ops, op.usesGen = false) :
    applyOps gen1 e ops = applyOps gen2 e ops ∧
    (applyOps gen1 e ops).get_best_parameters =
      (applyOps gen2 e ops).get_best_parameters := by
  have key := applyOps_genFree gen1 gen2 ops e h
  exact ⟨key, by rw [key]⟩

/-- Claim C7 witness: an attach-then-complete sequence behaves identically
under two different strategies. -/
theorem round_trip_deterministic_witness :
    applyOps noneStrategy cexExperiment detOps =
      applyOps emptyStrategy cexExperiment detOps :=
  (round_trip_deterministic noneStrategy emptyStrategy cexExperiment detOps
    (by decide)).1

/-- Claim C8: every operation preserves the experiment invariants - the
search space and outcome spec never change, trial indices stay exactly
0, 1, 2, ... in creation order (unique and strictly increasing), no trial
is ever deleted (the trial list can only stay or grow, and every existing
position keeps its index and parameterization - only state and data may
change). -/
theorem experiment_invariants (gen : Strategy) (e : Experiment) (op : Op)
    (he : e.WF) :
    (applyOp gen e op).WF ∧
    ((applyOp gen e op).trials.map Trial.index).Pairwise (· < ·) ∧
    (applyOp gen e op).searchSpace = e.searchSpace ∧
    (applyOp gen e op).outcomeSpec = e.outcomeSpec ∧
    e.trials.length ≤ (applyOp gen e op).trials.length ∧
    ∀ k, k < e.trials.length →
      ∃ a b, e.trials[k]? = some a ∧ (applyOp gen e op).trials[k]? = some b ∧
        b.index = a.index ∧ b.params = a.params := by
  have hwf := wf_applyOp gen e op he
  obtain ⟨l, hl, hcase⟩ := applyOp_shape gen e op
  refine ⟨hwf, ?_, by rw [hl], by rw [hl], ?_, ?_⟩
  · have hwf' := hwf
    rw [Experiment.WF] at hwf'
    rw [hwf']
    exact List.pairwise_lt_range _
  · rw [hl]
    rcases hcase with rfl | ⟨i, g, w, _, _, hg, rfl⟩ | ⟨t, _, rfl⟩
    · exact le_refl _
    · show e.trials.length ≤ (updTrials e.trials i g).length
      rw [updTrials, List.length_map]
    · show e.trials.length ≤ (e.trials ++ [t]).length
      rw [List.length_append]
      exact Nat.le_add_right _ _
  · intro k hk
    have hsome : e.trials[k]? = some (e.trials[k]) := List.getElem?_eq_getElem hk
    rw [hl]
    rcases hcase with rfl | ⟨i, g, w, _, _, hg, rfl⟩ | ⟨t, _, rfl⟩
    · exact ⟨e.trials[k], e.trials[k], hsome, hsome, rfl, rfl⟩
    · refine ⟨e.trials[k],
        if (e.trials[k]).index = i then g e.trials[k] else e.trials[k],
        hsome, ?_, ?_, ?_⟩
      · show (updTrials e.trials i g)[k]? = _
        rw [updTrials, List.getElem?_map, hsome]
        rfl
      · by_cases h : (e.trials[k]).index = i
        · simp [h, (hg _).1]
        · simp [h]
      · by_cases h : (e.trials[k]).index = i
        · simp [h, (hg _).2]
        · simp [h]
    · refine ⟨e.trials[k], e.trials[k], hsome, ?_, rfl, rfl⟩
      show (e.trials ++ [t])[k]? = _
      rw [List.getElem?_append, if_pos hk, hsome]

/-- Claim C8 witness: the invariants hold across a concrete proposal step
on the freshly created example experiment. -/
theorem experiment_invariants_witness :
    (applyOp noneStrategy exampleExperiment Op.next).WF :=
  (experiment_invariants noneStrategy exampleExperiment Op.next rfl).1

/-- A strictly better candidate is strictly smaller under minimize, strictly
larger otherwise. -/
theorem better_true (mz : Bool) (a b : ℚ) (h : better mz a b = true) :
    if mz then a < b else b < a := by
  cases mz <;> simpa [better] using h

/-- A candidate that is not strictly better is at least as small under
minimize, at least as large otherwise. -/
theorem better_false (mz : Bool) (a b : ℚ) (h : better mz a b = false) :
    if mz then b ≤ a else a ≤ b := by
  cases mz <;> simpa [better, not_lt] using h

/-- No best trial is selected exactly when no trial of the list has an
observed objective mean. -/
theorem selectBest_none_iff (mz : Bool) (obj : String) :
    ∀ ts : List Trial, selectBest mz obj ts = none ↔
      ∀ t ∈ ts, objMean obj t = none := by
  intro ts
  induction ts with
  | nil => simp [selectBest]
  | cons a ts ih =>
    rw [selectBest]
    cases ha : objMean obj a with
    | none =>
      simp only
      constructor
      · intro h u hu
        rcases List.mem_cons.1 hu with rfl | hu
        · exact ha
        · exact ih.1 h u hu
      · intro h
        exact ih.2 fun u hu => h u (List.mem_cons_of_mem _ hu)
    | some m =>
      simp only
      have hne : (match selectBest mz obj ts with
          | none => some a
          | some b => match objMean obj b with
            | none => some a
            | some mb => if better mz mb m then some b else some a) ≠ none := by
        cases hs : selectBest mz obj ts with
        | none => simp [hs]
        | some b =>
          simp only [hs]
          cases hb : objMean obj b with
          | none => simp [hb]
          | some mb =>
            simp only [hb]
            split <;> simp
      constructor
      · intro h
        exact absurd h hne
      · intro h
        exact absurd (h a (List.mem_cons_self a ts)) (by simp [ha])

/-- The selected best trial belongs to the list, has an observed objective
mean, and that mean is optimal among all observed means of the list, per
the minimize flag. -/
theorem selectBest_sound (mz : Bool) (obj : String) :
    ∀ (ts : List Trial) (t : Trial), selectBest mz obj ts = some t →
      t ∈ ts ∧ ∃ m, objMean obj t = some m ∧
        ∀ u ∈ ts, ∀ mu, objMean obj u = some mu →
          (if mz then m ≤ mu else mu ≤ m) := by
  intro ts
  induction ts with
  | nil =>
    intro t h
    simp [selectBest] at h
  | cons a ts ih =>
    intro t h
    rw [selectBest] at h
    cases ha : objMean obj a with
    | none =>
      simp only [ha] at h
      obtain ⟨hmem, m, hm, hopt⟩ := ih t h
      refine ⟨List.mem_cons_of_mem _ hmem, m, hm, ?_⟩
      intro u hu mu hmu
      rcases List.mem_cons.1 hu with rfl | hu
      · rw [ha] at hmu
        cases hmu
      · exact hopt u hu mu hmu
    | some m =>
      simp only [ha] at h
      cases hs : selectBest mz obj ts with
      | none =>
        simp only [hs] at h
        injection h with h
        subst h
        refine ⟨List.mem_cons_self _ _, m, ha, ?_⟩
        intro u hu mu hmu
        rcases List.mem_cons.1 hu with rfl | hu
        · rw [ha] at hmu
          injection hmu with hmu
          subst hmu
          split <;> exact le_refl _
        · rw [(selectBest_none_iff mz obj ts).1 hs u hu] at hmu
          cases hmu
      | some b =>
        simp only [hs] at h
        obtain ⟨hbmem, mb, hmb, hbopt⟩ := ih b hs
        simp only [hmb] at h
        by_cases hbet : better mz mb m = true
        · rw [if_pos hbet] at h
          injection h with h
          subst h
          refine ⟨List.mem_cons_of_mem _ hbmem, mb, hmb, ?_⟩
          intro u hu mu hmu
          rcases List.mem_cons.1 hu with rfl | hu
          · rw [ha] at hmu
            injection hmu with hmu
            subst hmu
            have hb' := better_true mz mb m hbet
            cases mz
            · simp only [Bool.false_eq_true, if_false] at hb' ⊢
              exact le_of_lt hb'
            · simp only [if_true] at hb' ⊢
              exact le_of_lt hb'
          · exact hbopt u hu mu hmu
        · rw [if_neg hbet] at h
          injection h with h
          subst h
          refine ⟨List.mem_cons_self _ _, m, ha, ?_⟩
          intro u hu mu hmu
          rcases List.mem_cons.1 hu with rfl | hu
          · rw [ha] at hmu
            injection hmu with hmu
            subst hmu
            split <;> exact le_refl _
          · have h1 := hbopt u hu mu hmu
            have hb' := better_false mz mb m
              (by rw [Bool.not_eq_true] at hbet; exact hbet)
            cases mz
            · simp only [Bool.false_eq_true, if_false] at h1 hb' ⊢
              exact le_trans h1 hb'
            · simp only [if_true] at h1 hb' ⊢
              exact le_trans hb' h1

/-- Claim C1 (amended): get_best_parameters selects, among the COMPLETED
trials satisfying all outcome constraints on observed means, one whose
objective observed mean is best per the minimize flag - so on completed
trials with objective means 5 (feasible), 2 (infeasible), 7 (feasible) and
minimize = true it returns the trial with mean 5, the best feasible one,
not 2 - and it signals NoFeasibleTrialError when no completed trial
satisfies all constraints. -/
theorem get_best_parameters_spec (e : Experiment) :
    (∀ ps d, e.get_best_parameters = .ok (ps, d) →
      ∃ t, t ∈ e.trials ∧ feasibleB e.outcomeSpec t = true ∧
        ps = t.params ∧ d = t.data ∧
        ∃ m, objMean e.outcomeSpec.objective t = some m ∧
          ∀ u ∈ e.trials, feasibleB e.outcomeSpec u = true →
            ∀ mu, objMean e.outcomeSpec.objective u = some mu →
              (if e.outcomeSpec.minimize then m ≤ mu else mu ≤ m)) ∧
    ((∀ t ∈ e.trials, feasibleB e.outcomeSpec t = false) →
      e.get_best_parameters = .error .NoFeasibleTrialError) ∧
    cexExperiment.get_best_parameters =
      .ok (cexTrial5.params, cexTrial5.data) := by
  refine ⟨?_, ?_, by rfl⟩
  · intro ps d h
    rw [Experiment.get_best_parameters] at h
    cases hsel : selectBest e.outcomeSpec.minimize e.outcomeSpec.objective
        (e.trials.filter (feasibleB e.outcomeSpec)) with
    | none =>
      simp only [hsel] at h
      exact Except.noConfusion h
    | some t =>
      simp only [hsel] at h
      injection h with h
      rw [Prod.ext_iff] at h
      obtain ⟨hps, hd⟩ := h
      obtain ⟨hmem, m, hm, hopt⟩ := selectBest_sound _ _ _ t hsel
      rw [List.mem_filter] at hmem
      refine ⟨t, hmem.1, hmem.2, hps.symm, hd.symm, m, hm, ?_⟩
      intro u hu hfeas mu hmu
      exact hopt u (List.mem_filter.2 ⟨hu, hfeas⟩) mu hmu
  · intro h
    rw [Experiment.get_best_parameters]
    have hfil : e.trials.filter (feasibleB e.outcomeSpec) = [] := by
      rw [List.filter_eq_nil_iff]
      intro a ha
      simp [h a ha]
    rw [hfil]
    rfl

/-- Claim C1 counterexample: on the spec's own example - completed trials
with objective means 5 (feasible), 2 (infeasible), 7 (feasible), minimize
on - the model returns the mean-5 trial, the best feasible one under
minimization, not the mean-7 trial the claim names. -/
theorem get_best_claim_cex :
    cexExperiment.outcomeSpec.minimize = true ∧
    feasibleB cexExperiment.outcomeSpec cexTrial5 = true ∧
    feasibleB cexExperiment.outcomeSpec cexTrial2 = false ∧
    feasibleB cexExperiment.outcomeSpec cexTrial7 = true ∧
    objMean "obj" cexTrial5 = some 5 ∧
    objMean "obj" cexTrial7 = some 7 ∧
    cexExperiment.get_best_parameters =
      .ok (cexTrial5.params, cexTrial5.data) ∧
    cexTrial5.params ≠ cexTrial7.params := by
  refine ⟨rfl, by rfl, by rfl, by rfl, rfl, rfl, by rfl, by decide⟩

/-- A left fold of successive additions is the start value plus the sum. -/
theorem foldl_add_sum {α : Type} (f : α → ℝ) :
    ∀ (l : List α) (a : ℝ),
      l.foldl (fun s k => s + f k) a = a + (l.map f).sum := by
  intro l
  induction l with
  | nil =>
    intro a
    simp
  | cons y ys ih =>
    intro a
    rw [List.foldl_cons, List.map_cons, List.sum_cons, ih]
    ring

/-- A left fold of successive subtractions is the start value minus the
sum. -/
theorem foldl_sub_sum {α : Type} (f : α → ℝ) :
    ∀ (l : List α) (a : ℝ),
      l.foldl (fun s k => s - f k) a = a - (l.map f).sum := by
  intro l
  induction l with
  | nil =>
    intro a
    simp
  | cons y ys ih =>
    intro a
    rw [List.foldl_cons, List.map_cons, List.sum_cons, ih]
    ring

/-- The looped accumulation of the source's hartmann6 equals the closed
Hartmann-6 formula. -/
theorem hartmann6_eq_sum (rexp : ℝ → ℝ) (x : Fin 6 → ℝ) :
    hartmann6 rexp x =
      -(∑ j : Fin 4, (alphav j : ℝ) *
        rexp (-(∑ k : Fin 6, (Amat j k : ℝ) * (x k - (Pmat j k : ℝ)) ^ 2))) := by
  rw [hartmann6]
  simp only [foldl_sub_sum, foldl_add_sum, zero_sub, zero_add,
    ← Fin.sum_univ_def]

/-- Claim C9: on a parameterization supplying all six coordinates, evaluate
returns exactly the metrics "hartmann6" and "l2norm", with the hartmann6
mean equal to the closed Hartmann-6 formula over the constant tables, the
l2norm mean equal to the Euclidean norm of the point, and both standard
errors exactly 0. -/
theorem evaluate_spec (p : String → Option ℝ) (x : Fin 6 → ℝ)
    (h1 : p "x1" = some (x 0)) (h2 : p "x2" = some (x 1))
    (h3 : p "x3" = some (x 2)) (h4 : p "x4" = some (x 3))
    (h5 : p "x5" = some (x 4)) (h6 : p "x6" = some (x 5)) :
    evaluate Real.exp Real.sqrt p =
      some [("hartmann6",
              -(∑ j : Fin 4, (alphav j : ℝ) *
                Real.exp (-(∑ k : Fin 6, (Amat j k : ℝ) *
                  (x k - (Pmat j k : ℝ)) ^ 2))), 0),
            ("l2norm", Real.sqrt (∑ k : Fin 6, x k ^ 2), 0)] := by
  have hx : (![x 0, x 1, x 2, x 3, x 4, x 5] : Fin 6 → ℝ) = x := by
    funext k
    fin_cases k <;> rfl
  simp only [evaluate, h1, h2, h3, h4, h5, h6, hx]
  rw [hartmann6_eq_sum]
  simp only [foldl_add_sum, zero_add, ← Fin.sum_univ_def]

/-- Claim C9 witness: instantiated on the all-ones parameterization. -/
theorem evaluate_spec_witness :
    evaluate Real.exp Real.sqrt onesP =
      some [("hartmann6",
              -(∑ j : Fin 4, (alphav j : ℝ) *
                Real.exp (-(∑ k : Fin 6, (Amat j k : ℝ) *
                  (onesX k - (Pmat j k : ℝ)) ^ 2))), 0),
            ("l2norm", Real.sqrt (∑ k : Fin 6, onesX k ^ 2), 0)] :=
  evaluate_spec onesP onesX rfl rfl rfl rfl rfl rfl

/-- Claim C10: evaluate returns a result exactly when the parameterization
supplies all six keys x1 ... x6 - a missing key is read as none by the
dictionary lookup rather than rejected, and the evaluation then produces no
result, as on the empty parameterization. -/
theorem evaluate_total_iff (rexp rsqrt : ℝ → ℝ) (p : String → Option ℝ) :
    ((evaluate rexp rsqrt p).isSome = true ↔
      ((p "x1").isSome && (p "x2").isSome && (p "x3").isSome &&
       (p "x4").isSome && (p "x5").isSome && (p "x6").isSome) = true) ∧
    evaluate rexp rsqrt (fun _ => none) = none := by
  refine ⟨?_, rfl⟩
  cases h1 : p "x1" <;> cases h2 : p "x2" <;> cases h3 : p "x3" <;>
    cases h4 : p "x4" <;> cases h5 : p "x5" <;> cases h6 : p "x6" <;>
    simp [evaluate, h1, h2, h3, h4, h5, h6]

end Ax
